import Mathlib

/-!
Verification of the CW-RailsPathMetrics analysis pipeline.

This file gives a shallow embedding, in Lean 4, of the core analysis
pipeline of the repository `kgrsutos/CW-RailsPathMetrics`:

* the Rails log-line Parser (`internal/analyzer/parser.go`),
* the Route Normalizer (`internal/analyzer/normalizer.go`),
* the Pairing Aggregator (`internal/analyzer/aggregator.go`),
* the Pipeline Orchestrator (`internal/analyzer/analyzer.go`).

Strings are modelled as their character lists; Go's `int` values
(status codes, durations, min/max) as `Int`; Go's `float64` running
mean as `ℚ` (so the statistics claims are settled over exact
arithmetic); Go maps as association lists (for metrics, where the
iteration order only affects the rendering order, which the source
documents as unspecified) or as functions to `Option` (for the pending
map of the pairing pass, where only lookup, store and delete occur).
Regular-expression matching is embedded as deterministic maximal-munch
scanning, which coincides with the engine's leftmost greedy semantics
for the concrete patterns of the source (every quantified class there
is disjoint from what follows it, except for the completed-line status
text, whose backtracking is resolved explicitly below).
-/

namespace CW

/-! ### List utilities: `strings.Split` on a single character, and join -/

/-- `strings.Split(s, sep)` for a one-character separator, on character
lists: splits at every occurrence of `c`, keeping empty pieces. -/
def splitChar (c : Char) : List Char → List (List Char)
  | [] => [[]]
  | x :: xs =>
    if x = c then [] :: splitChar c xs
    else
      match splitChar c xs with
      | [] => [[x]]
      | p :: ps => (x :: p) :: ps

/-- `strings.Join(parts, sep)` for a one-character separator. -/
def intercalateChar (c : Char) : List (List Char) → List Char
  | [] => []
  | [p] => p
  | p :: ps => p ++ c :: intercalateChar c ps

theorem splitChar_ne_nil (c : Char) (l : List Char) : splitChar c l ≠ [] := by
  cases l with
  | nil => simp [splitChar]
  | cons x xs =>
    simp only [splitChar]
    by_cases h : x = c
    · simp [h]
    · simp only [h, if_false]
      cases splitChar c xs <;> simp

theorem mem_of_mem_splitChar {c : Char} {l : List Char} {p : List Char} {x : Char}
    (hp : p ∈ splitChar c l) (hx : x ∈ p) : x ∈ l ∧ x ≠ c := by
  induction l generalizing p with
  | nil =>
    simp only [splitChar, List.mem_singleton] at hp
    subst hp; cases hx
  | cons y ys ih =>
    simp only [splitChar] at hp
    by_cases h : y = c
    · simp only [h, if_true, List.mem_cons] at hp
      rcases hp with hp | hp
      · subst hp; cases hx
      · rcases ih hp hx with ⟨h1, h2⟩
        exact ⟨List.mem_cons_of_mem _ h1, h2⟩
    · simp only [h, if_false] at hp
      rcases hs : splitChar c ys with _ | ⟨q, qs⟩
      · exact absurd hs (splitChar_ne_nil c ys)
      · rw [hs] at hp
        rcases List.mem_cons.mp hp with hp | hp
        · subst hp
          rcases List.mem_cons.mp hx with hx | hx
          · subst hx; exact ⟨List.mem_cons_self _ _, h⟩
          · have hq : q ∈ splitChar c ys := by rw [hs]; exact List.mem_cons_self _ _
            rcases ih hq hx with ⟨h1, h2⟩
            exact ⟨List.mem_cons_of_mem _ h1, h2⟩
        · have hq : p ∈ splitChar c ys := by rw [hs]; exact List.mem_cons_of_mem _ hp
          rcases ih hq hx with ⟨h1, h2⟩
          exact ⟨List.mem_cons_of_mem _ h1, h2⟩

theorem splitChar_of_not_mem {c : Char} {p : List Char} (h : c ∉ p) :
    splitChar c p = [p] := by
  induction p with
  | nil => rfl
  | cons x xs ih =>
    have hx : x ≠ c := fun he => h (he ▸ List.mem_cons_self _ _)
    have hxs : c ∉ xs := fun hm => h (List.mem_cons_of_mem _ hm)
    simp only [splitChar, hx, if_false, ih hxs]

theorem splitChar_append_cons {c : Char} {p rest : List Char} (h : c ∉ p) :
    splitChar c (p ++ c :: rest) = p :: splitChar c rest := by
  induction p with
  | nil => simp [splitChar]
  | cons x xs ih =>
    have hx : x ≠ c := fun he => h (he ▸ List.mem_cons_self _ _)
    have hxs : c ∉ xs := fun hm => h (List.mem_cons_of_mem _ hm)
    simp only [List.cons_append, splitChar, hx, if_false, List.append_eq]
    rw [ih hxs]

theorem splitChar_intercalateChar {c : Char} :
    ∀ {ps : List (List Char)}, ps ≠ [] → (∀ p ∈ ps, c ∉ p) →
      splitChar c (intercalateChar c ps) = ps
  | [], h, _ => absurd rfl h
  | [p], _, hall => by
      simp only [intercalateChar]
      exact splitChar_of_not_mem (hall p (List.mem_singleton_self p))
  | p :: q :: ps, _, hall => by
      have h1 : c ∉ p := hall p (List.mem_cons_self _ _)
      have : intercalateChar c (p :: q :: ps) = p ++ c :: intercalateChar c (q :: ps) := rfl
      rw [this, splitChar_append_cons h1,
        splitChar_intercalateChar (by simp) (fun r hr => hall r (List.mem_cons_of_mem _ hr))]

theorem mem_intercalateChar {c : Char} {x : Char} :
    ∀ {ps : List (List Char)}, x ∈ intercalateChar c ps →
      x = c ∨ ∃ p ∈ ps, x ∈ p
  | [], h => by cases h
  | [p], h => by
      right; exact ⟨p, List.mem_singleton_self p, h⟩
  | p :: q :: ps, h => by
      have : intercalateChar c (p :: q :: ps) = p ++ c :: intercalateChar c (q :: ps) := rfl
      rw [this, List.mem_append] at h
      rcases h with h | h
      · right; exact ⟨p, List.mem_cons_self _ _, h⟩
      · rcases List.mem_cons.mp h with h | h
        · left; exact h
        · rcases mem_intercalateChar h with h | ⟨r, hr, hx⟩
          · left; exact h
          · right; exact ⟨r, List.mem_cons_of_mem _ hr, hx⟩

theorem takeWhile_eq_self_of_all {p : Char → Bool} {l : List Char}
    (h : ∀ x ∈ l, p x) : l.takeWhile p = l := by
  induction l with
  | nil => rfl
  | cons x xs ih =>
    rw [List.takeWhile_cons, if_pos (h x (List.mem_cons_self _ _))]
    rw [ih (fun y hy => h y (List.mem_cons_of_mem _ hy))]

theorem mem_takeWhile_sat {p : Char → Bool} {l : List Char} {x : Char}
    (h : x ∈ l.takeWhile p) : p x := by
  induction l with
  | nil => cases h
  | cons y ys ih =>
    rw [List.takeWhile_cons] at h
    by_cases hy : p y
    · rw [if_pos hy] at h
      rcases List.mem_cons.mp h with h | h
      · exact h ▸ hy
      · exact ih h
    · rw [if_neg hy] at h; cases h

/-! ### Character classes

`reWS` is the RE2 class `\s = [\t\n\f\r ]` used by the parser's
patterns; `goSpace` is Unicode `White_Space`, used by
`strings.TrimSpace`.  `\d` is `[0-9]` and `\w` is `[0-9A-Za-z_]` in
RE2, matching Lean's ASCII `Char.isDigit`/`Char.isAlphanum`. -/

def reWS (c : Char) : Bool :=
  c = '\t' || c = '\n' || c = '\x0c' || c = '\r' || c = ' '

def goSpace (c : Char) : Bool :=
  (0x09 ≤ c.val && c.val ≤ 0x0d) || c = ' ' || c.val = 0x85 || c.val = 0xa0 ||
  c.val = 0x1680 || (0x2000 ≤ c.val && c.val ≤ 0x200a) || c.val = 0x2028 ||
  c.val = 0x2029 || c.val = 0x202f || c.val = 0x205f || c.val = 0x3000

/-- `strings.TrimSpace`. -/
def goTrimSpace (l : List Char) : List Char :=
  ((l.dropWhile goSpace).reverse.dropWhile goSpace).reverse

def isWordC (c : Char) : Bool := c.isAlphanum || c = '_'

def hexLetter (c : Char) : Bool :=
  ('a' ≤ c && c ≤ 'f') || ('A' ≤ c && c ≤ 'F')

def hexDigit (c : Char) : Bool := c.isDigit || hexLetter c

def upperC (c : Char) : Bool := 'A'.val ≤ c.val && c.val ≤ 'Z'.val

/-- Numeric value of a digit string (`strconv.Atoi` on an all-digit
string, before its `int64` range check). -/
def natOfDigits (l : List Char) : Nat :=
  l.foldl (fun n c => n * 10 + (c.toNat - '0'.toNat)) 0

/-! ### Route Normalizer (`normalizer.go`)

The five segment matchers.  `uuidRegex`, `hexIDRegex`, `dateRegex` and
`orderIDRegex` are anchored patterns over character classes that never
contain `-`, so matching is equivalent to splitting the segment at `-`
and checking the group shapes, which is how they are embedded here. -/

/-- `isNumericID`: every rune is in `0..9`, segment nonempty. -/
def isNumericID (seg : List Char) : Bool :=
  !seg.isEmpty && seg.all (fun c => '0' ≤ c && c ≤ '9')

/-- `uuidRegex = ^[0-9a-fA-F]{8}-…{4}-…{4}-…{4}-…{12}$`. -/
def isUUID (seg : List Char) : Bool :=
  match splitChar '-' seg with
  | [a, b, c, d, e] =>
    a.length = 8 && b.length = 4 && c.length = 4 && d.length = 4 && e.length = 12 &&
    (a ++ b ++ c ++ d ++ e).all hexDigit
  | _ => false

/-- `isHexID`: length ≥ 6, at least one hex letter (pure digit strings
excluded), and `hexIDRegex = ^[0-9a-fA-F]{6,}$`. -/
def isHexID (seg : List Char) : Bool :=
  decide (6 ≤ seg.length) && seg.any hexLetter && seg.all hexDigit

/-- `dateRegex = ^\d{4}-\d{2}-\d{2}$`. -/
def dateShaped (seg : List Char) : Bool :=
  match splitChar '-' seg with
  | [y, m, d] => y.length = 4 && m.length = 2 && d.length = 2 && (y ++ m ++ d).all Char.isDigit
  | _ => false

/-- Leap-year rule used by `time.Date`/`time.Parse`. -/
def isLeapYear (y : Nat) : Bool := y % 4 = 0 && (y % 100 ≠ 0 || y % 400 = 0)

/-- Days in a month, as validated by `time.Parse` ("day out of range"). -/
def daysInMonth (y m : Nat) : Nat :=
  if m = 2 then (if isLeapYear y then 29 else 28)
  else if m = 4 || m = 6 || m = 9 || m = 11 then 30
  else 31

def yearOf (seg : List Char) : Nat := natOfDigits ((splitChar '-' seg).getD 0 [])

def monthOf (seg : List Char) : Nat := natOfDigits ((splitChar '-' seg).getD 1 [])

def dayOf (seg : List Char) : Nat := natOfDigits ((splitChar '-' seg).getD 2 [])

/-- `time.Parse("2006-01-02", seg)` succeeds, for a `dateShaped`
segment: the month must be 1–12 and the day 1–`daysInMonth`. -/
def goDateValid (seg : List Char) : Bool :=
  1 ≤ monthOf seg && monthOf seg ≤ 12 && 1 ≤ dayOf seg &&
  dayOf seg ≤ daysInMonth (yearOf seg) (monthOf seg)

/-- `isDateFormat`: shape check via `dateRegex`, then calendar
validation via `time.Parse("2006-01-02", segment)`. -/
def isDateFormat (seg : List Char) : Bool :=
  dateShaped seg && goDateValid seg

/-- `orderIDRegex = ^[A-Z]{3,}-[A-Z0-9]+-[0-9]+$|^[A-Z]{3,}-[0-9]+$`. -/
def isOrderID (seg : List Char) : Bool :=
  match splitChar '-' seg with
  | [a, b, c] =>
    (decide (3 ≤ a.length) && a.all upperC) &&
    (!b.isEmpty && b.all (fun ch => upperC ch || ch.isDigit)) &&
    (!c.isEmpty && c.all Char.isDigit)
  | [a, b] =>
    (decide (3 ≤ a.length) && a.all upperC) && (!b.isEmpty && b.all Char.isDigit)
  | _ => false

/-- `shouldNormalize`: the five matchers in source order. -/
def shouldNormalize (seg : List Char) : Bool :=
  isNumericID seg || isUUID seg || isHexID seg || isDateFormat seg || isOrderID seg

/-- `getPlaceholder`. -/
def getPlaceholder (seg : List Char) : List Char :=
  if isDateFormat seg then ":date".data else ":id".data

/-- The per-segment transform of `NormalizePath`'s loop: empty
segments pass through; matched segments are replaced. -/
def normalizeSegmentL (seg : List Char) : List Char :=
  if seg.isEmpty then seg
  else if shouldNormalize seg then getPlaceholder seg else seg

/-- `NormalizePath`: drop everything from the first `?` on
(`strings.SplitN(path, "?", 2)[0]`), split at `/`, rewrite each
segment, and re-join with `/`. -/
def normalizePathL (l : List Char) : List Char :=
  intercalateChar '/' ((splitChar '/' (l.takeWhile (fun c => c ≠ '?'))).map normalizeSegmentL)

/-- `NormalizePath` on Lean strings. -/
def NormalizePath (s : String) : String :=
  ⟨normalizePathL s.data⟩

example : NormalizePath "/users/123" = "/users/:id" := by decide
example : NormalizePath "/posts/456/comments/789" = "/posts/:id/comments/:id" := by decide
example : NormalizePath "/api/v1/resources/550e8400-e29b-41d4-a716-446655440000" = "/api/v1/resources/:id" := by decide
example : NormalizePath "/users/john/posts/123" = "/users/john/posts/:id" := by decide
example : NormalizePath "/" = "/" := by decide
example : NormalizePath "/users/123?page=1" = "/users/:id" := by decide
example : NormalizePath "/posts/2023-01-15" = "/posts/:date" := by decide
example : NormalizePath "/files/document.pdf" = "/files/document.pdf" := by decide
example : NormalizePath "/api/v2/orders/ORD-2023-001234" = "/api/v2/orders/:id" := by decide
example : NormalizePath "/users/123/edit" = "/users/:id/edit" := by decide
example : NormalizePath "/objects/a1b2c3d4e5f6" = "/objects/:id" := by decide
example : NormalizePath "/users//123" = "/users//:id" := by decide
example : NormalizePath "/users/123/" = "/users/:id/" := by decide
example : NormalizePath "/products/789?" = "/products/:id" := by decide
example : NormalizePath "/posts/2023-02-30" = "/posts/2023-02-30" := by decide
example : NormalizePath "/orders/ORD-2023-001" = "/orders/:id" := by decide
example : isDateFormat "2024-02-29".data = true := by decide
example : isDateFormat "2023-02-29".data = false := by decide
example : isDateFormat "2023-13-01".data = false := by decide
example : isHexID "507f1f77bcf86cd799439011".data = true := by decide
example : isHexID "123456".data = false := by decide
example : isOrderID "REF-ABC-123".data = true := by decide
example : isOrderID "ORDER".data = false := by decide
example : isUUID "550E8400-E29B-41D4-A716-446655440000".data = true := by decide
example : isUUID "550e8400-e29b-41d4-a716".data = false := by decide

/-! ### Entry Parser (`parser.go`)

The anchored patterns `startedLogRegex` and `completedLogRegex` are
embedded as deterministic scanners; `munch1` is a maximal munch of a
character class (`+` quantifier), `lit` a literal. -/

/-- Maximal nonempty munch of a character class (a `+` quantifier whose
class is disjoint from what follows it in the pattern). -/
def munch1 (p : Char → Bool) (l : List Char) : Option (List Char × List Char) :=
  match l.span p with
  | ([], _) => none
  | (a, b) => some (a, b)

/-- Match a literal, returning the rest. -/
def lit : List Char → List Char → Option (List Char)
  | [], rest => some rest
  | _ :: _, [] => none
  | p :: ps, c :: cs => if c = p then lit ps cs else none

/-- `startedLogRegex = ^Started\s+(\w+)\s+"([^"]+)"\s+for\s+[\d.]+\s+at\s+(.+)$`.
Returns the submatches: method, path, and the raw timestamp text.
`.` does not match a newline in RE2 and `$` is end of text, hence the
final check on the remainder. -/
def parseStartedL (l : List Char) : Option (List Char × List Char × List Char) :=
  match lit "Started".data l with
  | none => none
  | some r =>
  match munch1 reWS r with
  | none => none
  | some (_, r) =>
  match munch1 isWordC r with
  | none => none
  | some (meth, r) =>
  match munch1 reWS r with
  | none => none
  | some (_, r) =>
  match lit ['"'] r with
  | none => none
  | some r =>
  match munch1 (fun c => c ≠ '"') r with
  | none => none
  | some (path, r) =>
  match lit ['"'] r with
  | none => none
  | some r =>
  match munch1 reWS r with
  | none => none
  | some (_, r) =>
  match lit "for".data r with
  | none => none
  | some r =>
  match munch1 reWS r with
  | none => none
  | some (_, r) =>
  match munch1 (fun c => c.isDigit || c = '.') r with
  | none => none
  | some (_, r) =>
  match munch1 reWS r with
  | none => none
  | some (_, r) =>
  match lit "at".data r with
  | none => none
  | some r =>
  match munch1 reWS r with
  | none => none
  | some (_, r) =>
  if r ≠ [] ∧ '\n' ∉ r then some (meth, path, r) else none

/-- `completedLogRegex = ^Completed\s+(\d+)\s+([^i]+)\s+in\s+(\d+)ms`
(unanchored at the right).  Since `[^i]` and `\s` exclude `i`, the
literal `in` of any match sits at the first `i` after the status-code
digits; the text before that first `i` must begin and end with
whitespace and leave at least one character for the `([^i]+)` group.
The submatch for the status text is returned trimmed, as the source
stores `strings.TrimSpace(matches[2])` (any feasible split of the
leading/trailing whitespace between `\s+`, `([^i]+)` and `\s+` trims
to the same string).  Returns status code digits' value, trimmed
status text, and duration digits' value. -/
def parseCompletedL (l : List Char) : Option (Nat × List Char × Nat) :=
  match lit "Completed".data l with
  | none => none
  | some r =>
  match munch1 reWS r with
  | none => none
  | some (_, r) =>
  match munch1 Char.isDigit r with
  | none => none
  | some (code, r) =>
  let s := r.takeWhile (fun c => c ≠ 'i')
  match r.dropWhile (fun c => c ≠ 'i') with
  | 'i' :: 'n' :: r2 =>
    if Option.any reWS s.head? && Option.any reWS s.getLast? && decide (3 ≤ s.length) then
      match munch1 reWS r2 with
      | none => none
      | some (_, r3) =>
      match munch1 Char.isDigit r3 with
      | none => none
      | some (dur, r4) =>
      match lit "ms".data r4 with
      | none => none
      | some _ => some (natOfDigits code, goTrimSpace s, natOfDigits dur)
    else none
  | _ => none

/-- `sessionIDRegex = \[([^\]]+)\]$`: scan for the leftmost `[` whose
remaining text, up to the final `]` of the line, is nonempty and free
of `]` — that text is the captured token. -/
def bracketTok : List Char → Option (List Char)
  | [] => none
  | c :: rest =>
    if c = '[' ∧ rest ≠ [] ∧ ']' ∉ rest then some rest
    else bracketTok rest

/-- `extractSessionID`: the regex is anchored at the end of the line,
so a match exists only when the line ends in `]`. -/
def extractSessionIDL (l : List Char) : List Char :=
  if l.getLast? = some ']' then (bracketTok l.dropLast).getD [] else []

def extractSessionID (s : String) : String := ⟨extractSessionIDL s.data⟩

/-- `viewDurationRegex = Views:\s+([\d.]+)ms`, tried at one position. -/
def viewsAt (l : List Char) : Option (List Char) :=
  match lit "Views:".data l with
  | none => none
  | some r =>
  match munch1 reWS r with
  | none => none
  | some (_, r) =>
  match munch1 (fun c => c.isDigit || c = '.') r with
  | none => none
  | some (d, r2) =>
  match lit "ms".data r2 with
  | none => none
  | some _ => some d

/-- `dbDurationRegex = ActiveRecord:\s+([\d.]+)ms`, tried at one position. -/
def arAt (l : List Char) : Option (List Char) :=
  match lit "ActiveRecord:".data l with
  | none => none
  | some r =>
  match munch1 reWS r with
  | none => none
  | some (_, r) =>
  match munch1 (fun c => c.isDigit || c = '.') r with
  | none => none
  | some (d, r2) =>
  match lit "ms".data r2 with
  | none => none
  | some _ => some d

/-- Unanchored search (`FindStringSubmatch`): leftmost position where
the pattern matches. -/
def scanFor (pat : List Char → Option (List Char)) : List Char → Option (List Char)
  | [] => none
  | c :: cs =>
    match pat (c :: cs) with
    | some d => some d
    | none => scanFor pat cs

/-- `strconv.ParseFloat` on a `[\d.]+` capture, read over `ℚ`: at most
one dot and at least one digit. -/
def goParseFloatQ (d : List Char) : Option ℚ :=
  let ip := d.takeWhile Char.isDigit
  match d.dropWhile Char.isDigit with
  | [] => if ip.isEmpty then none else some ((natOfDigits ip : ℚ))
  | '.' :: fp =>
    if fp.all Char.isDigit && !(ip.isEmpty && fp.isEmpty) then
      some ((natOfDigits ip : ℚ) + (natOfDigits fp : ℚ) / ((10 : ℚ) ^ fp.length))
    else none
  | _ => none

/-- `time.Time`, reduced to the fields `time.Parse` fills for the
layout `"2006-01-02 15:04:05 -0700"`. -/
structure GoTime where
  year : Nat
  month : Nat
  day : Nat
  hour : Nat
  minute : Nat
  second : Nat
  offsetMinutes : Int
  deriving DecidableEq, Inhabited

/-- Exactly `n` digits (a zero-padded layout field). -/
def exactDigits (n : Nat) (l : List Char) : Option (Nat × List Char) :=
  let pre := l.take n
  if pre.length = n ∧ pre.all Char.isDigit then some (natOfDigits pre, l.drop n) else none

/-- One or two digits (`getnum` with `fixed = false`, used for the
hour field `15`). -/
def digits1or2 : List Char → Option (Nat × List Char)
  | [] => none
  | [c1] => if c1.isDigit then some (natOfDigits [c1], []) else none
  | c1 :: c2 :: r =>
    if c1.isDigit && c2.isDigit then some (natOfDigits [c1, c2], r)
    else if c1.isDigit then some (natOfDigits [c1], c2 :: r) else none

/-- `time.Parse("2006-01-02 15:04:05 -0700", ts)`: fixed-width numeric
fields, a signed numeric zone, the range checks Go applies to month,
day (calendar-aware), hour, minute and second, and the "extra text"
failure when input remains after the layout. -/
def parseTimestampL (l : List Char) : Option GoTime :=
  match exactDigits 4 l with
  | none => none
  | some (y, r) =>
  match lit ['-'] r with
  | none => none
  | some r =>
  match exactDigits 2 r with
  | none => none
  | some (mo, r) =>
  match lit ['-'] r with
  | none => none
  | some r =>
  match exactDigits 2 r with
  | none => none
  | some (d, r) =>
  match lit [' '] r with
  | none => none
  | some r =>
  match digits1or2 r with
  | none => none
  | some (h, r) =>
  match lit [':'] r with
  | none => none
  | some r =>
  match exactDigits 2 r with
  | none => none
  | some (mi, r) =>
  match lit [':'] r with
  | none => none
  | some r =>
  match exactDigits 2 r with
  | none => none
  | some (s, r) =>
  match lit [' '] r with
  | none => none
  | some r =>
  match (match r with
         | '+' :: r' => some ((1 : Int), r')
         | '-' :: r' => some ((-1 : Int), r')
         | _ => none) with
  | none => none
  | some (sgn, r) =>
  match exactDigits 2 r with
  | none => none
  | some (zh, r) =>
  match exactDigits 2 r with
  | none => none
  | some (zm, r) =>
  if r = [] ∧ 1 ≤ mo ∧ mo ≤ 12 ∧ 1 ≤ d ∧ d ≤ daysInMonth y mo ∧
     h ≤ 23 ∧ mi ≤ 59 ∧ s ≤ 59 then
    some ⟨y, mo, d, h, mi, s, sgn * (zh * 60 + zm)⟩
  else none

/-- `models.LogEntry`: the fields written by `parser.go` and read by
`aggregator.go`/`analyzer.go` (the models source file itself is not in
the snapshot; its field set is fully determined by those uses and by
spec §3). `Type` is the Go string tag `"Started"`/`"Completed"`. -/
structure LogEntry where
  logType : String
  method : String
  path : String
  timestamp : GoTime
  statusCode : Int
  statusText : String
  duration : Int
  sessionID : String
  viewDuration : ℚ
  dbDuration : ℚ
  deriving DecidableEq, Inhabited

/-- `math.MaxInt64`: `strconv.Atoi` fails beyond this. -/
def maxGoInt : Nat := 9223372036854775807

/-- `Parser.ParseLogEntry`: trim, reject empty lines, classify by the
Started/Completed patterns (mutually exclusive, Started first), parse
typed fields; any field failure makes the whole line fail.  Only
Completed entries receive a session token, and the view/ORM
sub-durations default to zero when absent or unparseable. -/
def parseLogEntryL (line : List Char) : Option LogEntry :=
  let l := goTrimSpace line
  if l.isEmpty then none
  else
    match parseStartedL l with
    | some (meth, path, ts) =>
      match parseTimestampL ts with
      | some t =>
        some { logType := "Started", method := ⟨meth⟩, path := ⟨path⟩, timestamp := t,
               statusCode := 0, statusText := "", duration := 0, sessionID := "",
               viewDuration := 0, dbDuration := 0 }
      | none => none
    | none =>
      match parseCompletedL l with
      | some (code, stext, dur) =>
        if code ≤ maxGoInt ∧ dur ≤ maxGoInt then
          some { logType := "Completed", method := "", path := "", timestamp := default,
                 statusCode := (code : Int), statusText := ⟨stext⟩, duration := (dur : Int),
                 sessionID := ⟨extractSessionIDL l⟩,
                 viewDuration := ((scanFor viewsAt l).bind goParseFloatQ).getD 0,
                 dbDuration := ((scanFor arAt l).bind goParseFloatQ).getD 0 }
        else none
      | none => none

def parseLogEntry (s : String) : Option LogEntry := parseLogEntryL s.data

example : parseLogEntry "Started GET \"/users/123\" for 127.0.0.1 at 2023-01-01 12:00:00 +0900" =
    some { logType := "Started", method := "GET", path := "/users/123",
           timestamp := ⟨2023, 1, 1, 12, 0, 0, 540⟩, statusCode := 0, statusText := "",
           duration := 0, sessionID := "", viewDuration := 0, dbDuration := 0 } := by
  with_unfolding_all rfl

example : parseLogEntry "Completed 200 OK in 150ms (Views: 100.0ms | ActiveRecord: 50.0ms) [a1b2c3d4]" =
    some { logType := "Completed", method := "", path := "", timestamp := default,
           statusCode := 200, statusText := "OK", duration := 150, sessionID := "a1b2c3d4",
           viewDuration := 100, dbDuration := 50 } := by
  with_unfolding_all rfl

example : parseLogEntry "Completed 404 Not Found in 50ms" =
    some { logType := "Completed", method := "", path := "", timestamp := default,
           statusCode := 404, statusText := "Not Found", duration := 50, sessionID := "",
           viewDuration := 0, dbDuration := 0 } := by
  with_unfolding_all rfl

example : parseLogEntry "Random log entry" = none := by decide
example : parseLogEntry "" = none := by decide
example : parseLogEntry "Started processing but not a Rails log" = none := by decide
example : extractSessionID "Completed 200 OK in 150ms [abc123]" = "abc123" := by decide
example : extractSessionID "Completed 200 OK in 150ms" = "" := by decide
example : extractSessionID "Completed 200 OK in 150ms [a1b2-c3d4_e5f6]" = "a1b2-c3d4_e5f6" := by decide
example : extractSessionID "Completed 200 OK in 150ms (Views: [test]) [session123]" = "session123" := by decide
example : parseLogEntry "Started GET \"/users/123\" for 127.0.0.1 at 2023-01-01 12:00:00 +0900 [s1]" = none := by decide

/-! ### Models and Pairing Aggregator (`aggregator.go`)

The remaining `models` structures, with fields as used by
`aggregator.go` and `analyzer.go` and as listed in spec §3/§6.  Go's
`map[string]*PathMetrics` and the two count maps are embedded as
association lists (updated in place, appended on first use); the
pending map of the pairing pass, which is only read, stored to and
deleted from, as a function to `Option`. -/

structure RequestPair where
  started : LogEntry
  completed : LogEntry
  deriving DecidableEq, Inhabited

structure PathMetrics where
  path : String
  count : Nat
  averageTime : ℚ
  minTime : Int
  maxTime : Int
  statusCodes : List (Int × Nat)
  methods : List (String × Nat)
  totalViewDuration : ℚ
  totalDBDuration : ℚ
  deriving DecidableEq, Inhabited

structure LogEvent where
  id : String
  message : String
  timestamp : GoTime
  deriving DecidableEq, Inhabited

structure AnalysisResult where
  startTime : GoTime
  endTime : GoTime
  totalLogs : Nat
  pathMetrics : List (String × PathMetrics)
  deriving DecidableEq, Inhabited

structure SimplifiedPathMetrics where
  path : String
  count : Nat
  maxTimeMs : Int
  minTimeMs : Int
  avgTimeMs : String
  deriving DecidableEq, Inhabited

def lookupAssoc {β : Type} (k : String) : List (String × β) → Option β
  | [] => none
  | (k', v) :: rest => if k' = k then some v else lookupAssoc k rest

def setAssoc {β : Type} (k : String) (v : β) : List (String × β) → List (String × β)
  | [] => [(k, v)]
  | (k', v') :: rest => if k' = k then (k', v) :: rest else (k', v') :: setAssoc k v rest

/-- `m[k]++` on a Go count map. -/
def bumpAssoc {κ : Type} [DecidableEq κ] (k : κ) : List (κ × Nat) → List (κ × Nat)
  | [] => [(k, 1)]
  | (k', n) :: rest => if k' = k then (k', n + 1) :: rest else (k', n) :: bumpAssoc k rest

def sumVals {κ : Type} : List (κ × Nat) → Nat
  | [] => 0
  | (_, n) :: rest => n + sumVals rest

/-- One step of `MatchRequestPairs`' loop: a Started entry with a
token is stored (overwriting), a Completed entry with a token that
finds a pending Started emits the pair and deletes the pending entry;
everything else leaves the state unchanged. -/
def matchStep (st : List RequestPair × (String → Option LogEntry)) (e : LogEntry) :
    List RequestPair × (String → Option LogEntry) :=
  if e.logType = "Started" then
    if e.sessionID ≠ "" then (st.1, fun t => if t = e.sessionID then some e else st.2 t)
    else st
  else if e.logType = "Completed" ∧ e.sessionID ≠ "" then
    match st.2 e.sessionID with
    | some s => (st.1 ++ [⟨s, e⟩], fun t => if t = e.sessionID then none else st.2 t)
    | none => st
  else st

/-- `Aggregator.MatchRequestPairs`. -/
def MatchRequestPairs (entries : List LogEntry) : List RequestPair :=
  (entries.foldl matchStep ([], fun _ => none)).1

/-- The zero-valued `PathMetrics` created on a route's first pair. -/
def freshMetrics (np : String) : PathMetrics :=
  { path := np, count := 0, averageTime := 0, minTime := 0, maxTime := 0,
    statusCodes := [], methods := [], totalViewDuration := 0, totalDBDuration := 0 }

/-- The metrics update of `AggregateMetrics`' loop body: increment the
count; the first sample sets min/max/mean, later ones fold with
`(mean*(count-1) + d)/count`; bump the status-code and method counts;
accumulate strictly positive view/DB durations. -/
def applyPair (m : PathMetrics) (p : RequestPair) : PathMetrics :=
  let cnt := m.count + 1
  let d := p.completed.duration
  { path := m.path
    count := cnt
    averageTime :=
      if cnt = 1 then (d : ℚ)
      else (m.averageTime * ((cnt - 1 : Nat) : ℚ) + (d : ℚ)) / (cnt : ℚ)
    minTime := if cnt = 1 then d else (if d < m.minTime then d else m.minTime)
    maxTime := if cnt = 1 then d else (if m.maxTime < d then d else m.maxTime)
    statusCodes := bumpAssoc p.completed.statusCode m.statusCodes
    methods := bumpAssoc p.started.method m.methods
    totalViewDuration :=
      if 0 < p.completed.viewDuration then m.totalViewDuration + p.completed.viewDuration
      else m.totalViewDuration
    totalDBDuration :=
      if 0 < p.completed.dbDuration then m.totalDBDuration + p.completed.dbDuration
      else m.totalDBDuration }

/-- One iteration of `AggregateMetrics`' loop: skip excluded paths,
normalize, get-or-create the route's metrics, update. -/
def aggStep (excl : String → Bool) (acc : List (String × PathMetrics)) (p : RequestPair) :
    List (String × PathMetrics) :=
  if excl p.started.path then acc
  else
    let np := NormalizePath p.started.path
    setAssoc np (applyPair ((lookupAssoc np acc).getD (freshMetrics np)) p) acc

/-- `Aggregator.AggregateMetrics` (the exclusion predicate
`pathExcluder.ShouldExclude` is the external collaborator and is
passed as a function). -/
def AggregateMetrics (excl : String → Bool) (pairs : List RequestPair) :
    List (String × PathMetrics) :=
  pairs.foldl (aggStep excl) []

/-- `Aggregator.AnalyzeLogs`: `TotalLogs` is the number of entries
handed to the aggregator. -/
def AnalyzeLogs (excl : String → Bool) (entries : List LogEntry) (startT endT : GoTime) :
    AnalysisResult :=
  { startTime := startT, endTime := endT, totalLogs := entries.length,
    pathMetrics := AggregateMetrics excl (MatchRequestPairs entries) }

/-- `Analyzer.AnalyzeLogEvents`: parse every event's message, drop
failures, analyze the parsed entries. -/
def AnalyzeLogEvents (excl : String → Bool) (events : List LogEvent) (startT endT : GoTime) :
    AnalysisResult :=
  AnalyzeLogs excl (events.filterMap (fun ev => parseLogEntry ev.message)) startT endT

/-- `config.NewDefaultPathExcluder().ShouldExclude`: a single prefix
rule for `/rails/active_storage`. -/
def defaultShouldExclude (path : String) : Bool :=
  "/rails/active_storage".data.isPrefixOf path.data

/-! ### Rendering (`analyzer.go`, `OutputJSON`) -/

/-- `fmt.Sprintf("%.0f", q)`, read over `ℚ`: round to the nearest
integer, ties to the even one (Go's negative zero prints as `-0`,
which this integer-valued model does not distinguish). -/
def roundHalfEven (q : ℚ) : Int :=
  let n := ⌊q⌋
  if q - n < 1/2 then n
  else if (1 : ℚ)/2 < q - n then n + 1
  else if n % 2 = 0 then n else n + 1

def formatAvg (q : ℚ) : String := toString (roundHalfEven q)

/-- The projection of one `PathMetrics` into a flat output record. -/
def project (m : PathMetrics) : SimplifiedPathMetrics :=
  { path := m.path, count := m.count, maxTimeMs := m.maxTime, minTimeMs := m.minTime,
    avgTimeMs := formatAvg m.averageTime }

/-- The `sort.Slice` order of `OutputJSON`: count descending. -/
def countGE (a b : SimplifiedPathMetrics) : Prop := b.count ≤ a.count

instance : DecidableRel countGE := fun a b => Nat.decLe b.count a.count

instance : IsTotal SimplifiedPathMetrics countGE := ⟨fun a b => Nat.le_total b.count a.count⟩

instance : IsTrans SimplifiedPathMetrics countGE := ⟨fun _ _ _ hab hbc => le_trans hbc hab⟩

/-- `Analyzer.OutputJSON`, at the level of the record list it encodes:
project every route's metrics (in the map's iteration sequence, taken
as the input list) and sort by count descending.  `sort.Slice` is an
unspecified-tie comparison sort; it is embedded as an insertion sort,
which realizes the same contract. -/
def OutputJSON (metricsList : List PathMetrics) : List SimplifiedPathMetrics :=
  List.insertionSort countGE (metricsList.map project)

def t0 : GoTime := ⟨0, 0, 0, 0, 0, 0, 0⟩

def mkStart (tok path : String) : LogEntry :=
  { logType := "Started", method := "GET", path := path, timestamp := t0,
    statusCode := 0, statusText := "", duration := 0, sessionID := tok,
    viewDuration := 0, dbDuration := 0 }

def mkCompl (tok : String) (d : Int) : LogEntry :=
  { logType := "Completed", method := "", path := "", timestamp := t0,
    statusCode := 200, statusText := "OK", duration := d, sessionID := tok,
    viewDuration := 0, dbDuration := 0 }

example : MatchRequestPairs [mkStart "s1" "/users/1", mkCompl "s1" 100] =
    [⟨mkStart "s1" "/users/1", mkCompl "s1" 100⟩] := by with_unfolding_all rfl

example : MatchRequestPairs [mkCompl "s1" 100] = [] := by with_unfolding_all rfl

example : MatchRequestPairs [mkStart "s1" "/users/1", mkCompl "s1" 100, mkCompl "s1" 200] =
    [⟨mkStart "s1" "/users/1", mkCompl "s1" 100⟩] := by with_unfolding_all rfl

example :
    AggregateMetrics (fun _ => false)
      [⟨mkStart "s1" "/users/1", mkCompl "s1" 100⟩, ⟨mkStart "s2" "/users/2", mkCompl "s2" 200⟩] =
    [("/users/:id",
      { path := "/users/:id", count := 2, averageTime := 150, minTime := 100, maxTime := 200,
        statusCodes := [(200, 2)], methods := [("GET", 2)],
        totalViewDuration := 0, totalDBDuration := 0 })] := by with_unfolding_all rfl

example :
    (AnalyzeLogEvents defaultShouldExclude
      [⟨"1", "Invalid log format", t0⟩, ⟨"2", "Completed 200 OK in 150ms", t0⟩] t0 t0).totalLogs
    = 1 := by decide

example :
    OutputJSON [⟨"/a", 1, 150, 150, 150, [(200, 1)], [("GET", 1)], 0, 0⟩,
                ⟨"/b", 2, (401 : ℚ)/2, 150, 250, [(200, 2)], [("GET", 2)], 0, 0⟩] =
    [⟨"/b", 2, 250, 150, "200"⟩, ⟨"/a", 1, 150, 150, "150"⟩] := by with_unfolding_all rfl

/-! ### Spec-side definitions used to compare against the source -/

/-- Modelled from the spec: "the token is the content of the **last**
`[...]` bracket group found anywhere in the line" — the content of the
last (nonempty, `]`-free) bracket group as the regex `\[([^\]]+)\]`
would enumerate matches left to right.  State machine: `cur` is the
reversed content of an open group, `last` the latest completed one. -/
def lastBracketGroupAux (last : Option (List Char)) (cur : Option (List Char)) :
    List Char → Option (List Char)
  | [] => last
  | c :: r =>
    match cur with
    | none =>
      if c = '[' then lastBracketGroupAux last (some []) r
      else lastBracketGroupAux last none r
    | some acc =>
      if c = ']' then
        if acc.isEmpty then lastBracketGroupAux last none r
        else lastBracketGroupAux (some acc.reverse) none r
      else lastBracketGroupAux last (some (c :: acc)) r

def lastBracketGroup (l : List Char) : Option (List Char) :=
  lastBracketGroupAux none none l

example : lastBracketGroup "Completed 200 OK in 150ms (Views: [test]) [session123]".data =
    some "session123".data := by decide

/-- Every `[` in the list is followed by some later `]` (so no open
bracket group can swallow a trailing token appended after it). -/
def allBracketsClosed : List Char → Bool
  | [] => true
  | c :: rest => (if c = '[' then rest.contains ']' else true) && allBracketsClosed rest

/-- Modelled from the spec: "the portion of the path before the first
`?`"  (`strings.SplitN(path, "?", 2)[0]`). -/
def pathBeforeQuery (s : String) : String :=
  ⟨s.data.takeWhile (fun c => c ≠ '?')⟩

/-! ### Claims C1, C2, C3 -/

def c1StartLine : String :=
  "Started GET \"/users/123\" for 127.0.0.1 at 2023-01-01 12:00:00 +0900 [s1]"

def c1CompletedLine : String := "Completed 200 OK in 150ms [s1]"

def c1Events : List LogEvent := [⟨"1", c1StartLine, t0⟩, ⟨"2", c1CompletedLine, t0⟩]

/-- **C1** (code bug).  On Scenario 1's two lines, the source pipeline
does *not* produce the route `/users/:id`: the Started regex's
timestamp group captures `2023-01-01 12:00:00 +0900 [s1]`, `time.Parse`
fails on the extra text, `ParseLogEntry` returns an error and the
record is skipped (and `parseStartedLog` never extracts a session
token at all), so no pair ever forms: the result has no routes and
counts only the Completed line.  The repository's own tests
(`TestAnalyzer_AnalyzeLogEvents`, the integration tests) assert the
claimed behaviour, which the parser in the tree contradicts. -/
theorem scenario1_start_token_parse_fails :
    parseLogEntry c1StartLine = none ∧
    (AnalyzeLogEvents defaultShouldExclude c1Events t0 t0).pathMetrics = [] ∧
    (AnalyzeLogEvents defaultShouldExclude c1Events t0 t0).totalLogs = 1 :=
  ⟨by decide, by with_unfolding_all rfl, by decide⟩

/-- **C2** (counterexample).  The session-token regex is anchored at
the end of the line (`\[([^\]]+)\]$`), not "anywhere": on a line whose
last bracket group is followed by further text, the claim predicts the
group's content, but `extractSessionID` returns the empty token. -/
theorem extractSessionID_not_last_group_anywhere :
    lastBracketGroup "Completed 200 OK in 150ms [s1] ok".data = some "s1".data ∧
    extractSessionID "Completed 200 OK in 150ms [s1] ok" = "" :=
  ⟨by decide, by decide⟩

theorem bracketTok_prefix_closed :
    ∀ {a : List Char}, allBracketsClosed a = true →
      ∀ {c : List Char}, c ≠ [] → ']' ∉ c → bracketTok (a ++ '[' :: c) = some c := by
  intro a
  induction a with
  | nil =>
    intro _ c hne hnc
    rw [List.nil_append, bracketTok, if_pos ⟨rfl, hne, hnc⟩]
  | cons x a' ih =>
    intro hcl c hne hnc
    simp only [allBracketsClosed, Bool.and_eq_true] at hcl
    obtain ⟨hx, hcl'⟩ := hcl
    rw [List.cons_append, bracketTok, if_neg, ih hcl' hne hnc]
    rintro ⟨hxe, -, hmem⟩
    rw [if_pos hxe] at hx
    have hmem' : ']' ∈ a' := by simpa using hx
    exact hmem (List.mem_append_left _ hmem')

/-- **C2** (amended).  The extracted token is the content of the
line's *trailing* bracket group: for a line of the form
`a ++ "[" ++ c ++ "]"` whose prefix `a` has every `[` closed and whose
content `c` is nonempty and `]`-free, the token is exactly `c`; and a
line that does not end in `]` always yields the empty token. -/
theorem extractSessionID_trailing_group :
    (∀ (a c : List Char), allBracketsClosed a = true → c ≠ [] → ']' ∉ c →
        extractSessionIDL (a ++ '[' :: (c ++ [']'])) = c) ∧
    (∀ l : List Char, l.getLast? ≠ some ']' → extractSessionIDL l = []) := by
  constructor
  · intro a c hcl hne hnc
    have hshape : a ++ '[' :: (c ++ [']']) = (a ++ '[' :: c) ++ [']'] := by simp
    rw [hshape]
    unfold extractSessionIDL
    rw [List.getLast?_concat, List.dropLast_concat, if_pos rfl,
      bracketTok_prefix_closed hcl hne hnc]
    rfl
  · intro l hl
    unfold extractSessionIDL
    rw [if_neg hl]

theorem extractSessionID_trailing_group_witness :
    extractSessionIDL ("(Views: [test]) ".data ++ '[' :: ("session123".data ++ [']'])) =
      "session123".data ∧
    extractSessionIDL "Completed 200 OK in 150ms".data = [] :=
  ⟨extractSessionID_trailing_group.1 _ _ (by decide) (by decide) (by decide),
   extractSessionID_trailing_group.2 _ (by decide)⟩

theorem length_filterMap_isSome {α β : Type} (f : α → Option β) (l : List α) :
    (l.filterMap f).length = (l.filter (fun a => (f a).isSome)).length := by
  induction l with
  | nil => rfl
  | cons x xs ih =>
    simp only [List.filterMap_cons, List.filter_cons]
    cases h : f x with
    | none => simpa [h] using ih
    | some b => simpa [h] using ih

/-- **C3** (counterexample).  On a batch of two records, one
unparseable, `TotalLogs` is 1, not the claimed raw-record count 2. -/
theorem totalLogs_ne_raw_record_count :
    (AnalyzeLogEvents defaultShouldExclude
      [⟨"1", "Invalid log format", t0⟩, ⟨"2", "Completed 200 OK in 150ms", t0⟩] t0 t0).totalLogs = 1 ∧
    ([⟨"1", "Invalid log format", t0⟩, ⟨"2", "Completed 200 OK in 150ms", t0⟩] : List LogEvent).length = 2 :=
  ⟨by decide, rfl⟩

/-- **C3** (amended).  `TotalLogs` equals the number of input records
whose line parses successfully: `AnalyzeLogEvents` drops failing
records *before* handing the entries to `AnalyzeLogs`, which sets
`TotalLogs = len(entries)`. -/
theorem totalLogs_eq_parsed_count (excl : String → Bool) (events : List LogEvent)
    (s e : GoTime) :
    (AnalyzeLogEvents excl events s e).totalLogs =
      (events.filter (fun ev => (parseLogEntry ev.message).isSome)).length := by
  unfold AnalyzeLogEvents AnalyzeLogs
  exact length_filterMap_isSome _ _

/-! ### Claims C4 and C8: the normalizer strips queries and is idempotent -/

theorem normalizeSegmentL_cases (seg : List Char) :
    normalizeSegmentL seg = seg ∨ normalizeSegmentL seg = ":id".data ∨
      normalizeSegmentL seg = ":date".data := by
  unfold normalizeSegmentL getPlaceholder
  by_cases h1 : seg.isEmpty
  · left; rw [if_pos h1]
  · rw [if_neg h1]
    by_cases h2 : shouldNormalize seg
    · rw [if_pos h2]
      by_cases h3 : isDateFormat seg
      · right; right; rw [if_pos h3]
      · right; left; rw [if_neg h3]
    · left; rw [if_neg h2]

theorem normalizeSegmentL_idem (seg : List Char) :
    normalizeSegmentL (normalizeSegmentL seg) = normalizeSegmentL seg := by
  rcases normalizeSegmentL_cases seg with h | h | h
  · rw [h]; exact h
  · rw [h]; decide
  · rw [h]; decide

theorem normalizeSegmentL_not_mem {c : Char} {seg : List Char} (h : c ∉ seg)
    (h1 : c ∉ ":id".data) (h2 : c ∉ ":date".data) : c ∉ normalizeSegmentL seg := by
  rcases normalizeSegmentL_cases seg with hc | hc | hc <;> rw [hc] <;> assumption

theorem normalizePathL_no_question (l : List Char) : '?' ∉ normalizePathL l := by
  intro hmem
  unfold normalizePathL at hmem
  rcases mem_intercalateChar hmem with h | ⟨p, hp, hx⟩
  · exact absurd h (by decide)
  · rcases List.mem_map.mp hp with ⟨q, hq, rfl⟩
    have hq' : '?' ∉ q := by
      intro hqm
      have h1 := (mem_of_mem_splitChar hq hqm).1
      have h2 := mem_takeWhile_sat h1
      simp at h2
    exact normalizeSegmentL_not_mem hq' (by decide) (by decide) hx

theorem splitChar_normalizePathL (l : List Char) :
    splitChar '/' (normalizePathL l) =
      (splitChar '/' (l.takeWhile (fun c => c ≠ '?'))).map normalizeSegmentL := by
  unfold normalizePathL
  apply splitChar_intercalateChar
  · intro hmap
    exact splitChar_ne_nil '/' _ (List.map_eq_nil_iff.mp hmap)
  · intro p hp
    rcases List.mem_map.mp hp with ⟨q, hq, rfl⟩
    have hq' : '/' ∉ q := fun hm => ((mem_of_mem_splitChar hq hm).2 rfl)
    exact normalizeSegmentL_not_mem hq' (by decide) (by decide)

theorem takeWhile_normalizePathL (l : List Char) :
    (normalizePathL l).takeWhile (fun c => c ≠ '?') = normalizePathL l := by
  apply takeWhile_eq_self_of_all
  intro x hx
  have hne : x ≠ '?' := fun he => normalizePathL_no_question l (he ▸ hx)
  simpa using hne

theorem takeWhile_takeWhile_self (p : Char → Bool) (l : List Char) :
    (l.takeWhile p).takeWhile p = l.takeWhile p :=
  takeWhile_eq_self_of_all (fun _ hx => mem_takeWhile_sat hx)

theorem normalizePathL_idem (l : List Char) :
    normalizePathL (normalizePathL l) = normalizePathL l := by
  conv_lhs => rw [normalizePathL]
  rw [takeWhile_normalizePathL, splitChar_normalizePathL, List.map_map]
  conv_rhs => rw [normalizePathL]
  congr 1
  apply List.map_congr_left
  intro seg _
  exact normalizeSegmentL_idem seg

/-- **C8**.  Path normalization is idempotent: a second pass strips no
query (the output has none), re-splits into exactly the once-rewritten
segments (placeholders contain no `/`), and rewrites none of them
again (`:id` and `:date` match none of the five matchers). -/
theorem normalizePath_idempotent (s : String) :
    NormalizePath (NormalizePath s) = NormalizePath s := by
  show (⟨normalizePathL (normalizePathL s.data)⟩ : String) = ⟨normalizePathL s.data⟩
  rw [normalizePathL_idem]

/-- **C4**.  The normalizer's output never contains `?`, and equals
the normalization of the portion of the path before the first `?`
(`strings.SplitN(path, "?", 2)[0]`). -/
theorem normalizePath_strips_query (s : String) :
    (∀ c ∈ (NormalizePath s).data, c ≠ '?') ∧
    NormalizePath s = NormalizePath (pathBeforeQuery s) := by
  constructor
  · intro c hc he
    exact normalizePathL_no_question s.data (he ▸ hc)
  · show (⟨normalizePathL s.data⟩ : String) =
      ⟨normalizePathL (s.data.takeWhile (fun c => c ≠ '?'))⟩
    unfold normalizePathL
    rw [takeWhile_takeWhile_self]

theorem normalizePath_strips_query_witness :
    ('u' ≠ '?') ∧
    NormalizePath "/users/123?page=1" = NormalizePath (pathBeforeQuery "/users/123?page=1") :=
  ⟨(normalizePath_strips_query "/users/123?page=1").1 'u' (by decide),
   (normalizePath_strips_query "/users/123?page=1").2⟩

/-! ### Claim C5: the date matcher validates real calendar dates -/

theorem intercalateChar_splitChar (c : Char) (l : List Char) :
    intercalateChar c (splitChar c l) = l := by
  induction l with
  | nil => rfl
  | cons x xs ih =>
    simp only [splitChar]
    by_cases h : x = c
    · rw [if_pos h]
      rcases hs : splitChar c xs with _ | ⟨p, ps⟩
      · exact absurd hs (splitChar_ne_nil c xs)
      · rw [hs] at ih
        subst h
        show x :: intercalateChar x (p :: ps) = x :: xs
        rw [ih]
    · rw [if_neg h]
      rcases hs : splitChar c xs with _ | ⟨p, ps⟩
      · exact absurd hs (splitChar_ne_nil c xs)
      · rw [hs] at ih
        cases ps with
        | nil =>
          show x :: p = x :: xs
          simpa [intercalateChar] using ih
        | cons q qs =>
          show (x :: p) ++ c :: intercalateChar c (q :: qs) = x :: xs
          rw [List.cons_append]
          have : p ++ c :: intercalateChar c (q :: qs) = xs := ih
          rw [this]

theorem digit_not_upper {x : Char} (h : x.isDigit = true) : upperC x = false := by
  simp only [Char.isDigit, Bool.and_eq_true, decide_eq_true_eq] at h
  have h57 : x.val.toNat ≤ (57 : UInt32).toNat := h.2
  have hA : ¬((65 : UInt32) ≤ x.val) := fun hle =>
    absurd (Nat.le_trans (show ((65 : UInt32).toNat ≤ x.val.toNat) from hle) h57) (by decide)
  simp [upperC, hA]

/-- **C5**.  A segment of the digit shape `YYYY-MM-DD` is rewritten to
`:date` if and only if it is a real calendar date (month 1–12, day
within the month's length, leap years per the Gregorian rule); a
shaped but invalid date is left verbatim (no other matcher fires on
it); and `/posts/2023-02-30` normalizes to itself. -/
theorem normalizeSegment_date_iff_valid_calendar :
    (∀ seg : List Char, dateShaped seg = true →
        (normalizeSegmentL seg = ":date".data ↔
          (1 ≤ monthOf seg ∧ monthOf seg ≤ 12 ∧ 1 ≤ dayOf seg ∧
           dayOf seg ≤ daysInMonth (yearOf seg) (monthOf seg)))) ∧
    (∀ seg : List Char, dateShaped seg = true → goDateValid seg = false →
        normalizeSegmentL seg = seg) ∧
    NormalizePath "/posts/2023-02-30" = "/posts/2023-02-30" := by
  have hvalid_iff : ∀ seg : List Char, goDateValid seg = true ↔
      (1 ≤ monthOf seg ∧ monthOf seg ≤ 12 ∧ 1 ≤ dayOf seg ∧
       dayOf seg ≤ daysInMonth (yearOf seg) (monthOf seg)) := by
    intro seg
    simp [goDateValid, Bool.and_eq_true, decide_eq_true_eq, and_assoc]
  have hkey : ∀ seg : List Char, dateShaped seg = true →
      ('-' ∈ seg ∧ seg ≠ [] ∧ isNumericID seg = false ∧ isUUID seg = false ∧
        isHexID seg = false ∧ isOrderID seg = false) := by
    intro seg hshaped
    rcases hs : splitChar '-' seg with _ | ⟨y, _ | ⟨m, _ | ⟨d, _ | ⟨e, rest⟩⟩⟩⟩ <;>
      rw [dateShaped, hs] at hshaped
    · cases hshaped
    · cases hshaped
    · cases hshaped
    case cons.cons.cons.nil =>
      simp only [Bool.and_eq_true, decide_eq_true_eq] at hshaped
      obtain ⟨⟨⟨hy, hm⟩, hd⟩, hall⟩ := hshaped
      have hseg : seg = y ++ '-' :: (m ++ '-' :: d) := by
        have := intercalateChar_splitChar '-' seg
        rw [hs] at this
        exact this.symm
      have hdash : '-' ∈ seg := by
        rw [hseg]
        exact List.mem_append_right _ (List.mem_cons_self _ _)
      have hne : seg ≠ [] := fun he => by rw [he] at hdash; cases hdash
      have hally : y.all Char.isDigit = true ∧ m.all Char.isDigit = true ∧
          d.all Char.isDigit = true := by
        simp only [List.append_assoc, List.all_append, Bool.and_eq_true] at hall
        exact ⟨hall.1, hall.2.1, hall.2.2⟩
      have hydig : ∀ x ∈ y, x.isDigit = true := by
        intro x hx
        exact List.all_eq_true.mp hally.1 x hx
      refine ⟨hdash, hne, ?_, ?_, ?_, ?_⟩
      · cases hnum : isNumericID seg with
        | false => rfl
        | true =>
          exfalso
          simp only [isNumericID, Bool.and_eq_true, List.all_eq_true] at hnum
          have := hnum.2 '-' hdash
          simp at this
      · rw [isUUID, hs]
      · cases hhex : isHexID seg with
        | false => rfl
        | true =>
          exfalso
          simp only [isHexID, Bool.and_eq_true, List.all_eq_true] at hhex
          obtain ⟨-, hall'⟩ := hhex
          have := hall' '-' hdash
          simp [hexDigit, hexLetter, Char.isDigit] at this
      · rw [isOrderID, hs]
        rcases y with _ | ⟨c0, ytail⟩
        · simp at hy
        · have hc0 : c0.isDigit = true := hydig c0 (List.mem_cons_self _ _)
          have hub : (c0 :: ytail).all upperC = false := by
            cases hub' : (c0 :: ytail).all upperC with
            | false => rfl
            | true =>
              have := List.all_eq_true.mp hub' c0 (List.mem_cons_self _ _)
              rw [digit_not_upper hc0] at this
              cases this
          simp [hub]
    case cons.cons.cons.cons =>
      cases hshaped
  refine ⟨?_, ?_, by decide⟩
  · intro seg hshaped
    obtain ⟨hdash, hne, _, _, _, _⟩ := hkey seg hshaped
    rw [← hvalid_iff]
    have hnotempty : seg.isEmpty = false := by
      cases seg with
      | nil => exact absurd rfl hne
      | cons a b => rfl
    constructor
    · intro hplc
      unfold normalizeSegmentL at hplc
      rw [hnotempty] at hplc
      simp only [Bool.false_eq_true, if_false] at hplc
      by_cases h2 : shouldNormalize seg
      · rw [if_pos h2] at hplc
        unfold getPlaceholder at hplc
        by_cases h3 : isDateFormat seg
        · unfold isDateFormat at h3
          exact (Bool.and_eq_true _ _ |>.mp h3).2
        · rw [if_neg h3] at hplc
          exact absurd hplc (by decide)
      · rw [if_neg h2] at hplc
        rw [hplc] at hshaped
        exact absurd hshaped (by decide)
    · intro hval
      have hdf : isDateFormat seg = true := by
        unfold isDateFormat
        rw [hshaped, hval]
        rfl
      unfold normalizeSegmentL
      rw [hnotempty]
      simp only [Bool.false_eq_true, if_false]
      rw [if_pos (by unfold shouldNormalize; rw [hdf]; simp), getPlaceholder, if_pos hdf]
  · intro seg hshaped hinvalid
    obtain ⟨hdash, hne, hn1, hn2, hn3, hn5⟩ := hkey seg hshaped
    have hn4 : isDateFormat seg = false := by
      unfold isDateFormat
      rw [hinvalid, Bool.and_false]
    have hsn : shouldNormalize seg = false := by
      unfold shouldNormalize
      rw [hn1, hn2, hn3, hn4, hn5]
      rfl
    unfold normalizeSegmentL
    by_cases h1 : seg.isEmpty
    · rw [if_pos h1]
    · rw [if_neg h1, if_neg (by rw [hsn]; exact Bool.false_ne_true)]

theorem normalizeSegment_date_witness :
    normalizeSegmentL "2024-02-29".data = ":date".data ∧
    normalizeSegmentL "2023-02-30".data = "2023-02-30".data :=
  ⟨(normalizeSegment_date_iff_valid_calendar.1 _ (by decide)).mpr (by decide),
   normalizeSegment_date_iff_valid_calendar.2.1 _ (by decide) (by decide)⟩

/-! ### Claim C9: the rendered output list -/

/-- **C9**.  `OutputJSON`'s record list is sorted by count in
descending order and is a permutation of the projections
{path, count, max_time_ms, min_time_ms, avg_time_ms (rounded mean,
rendered as a string)} of the input metrics — ties keep no specified
order, matching the source's unspecified map iteration and unstable
sort — and the empty metrics map yields the empty array. -/
theorem outputJSON_sorted_desc_perm :
    (∀ l : List PathMetrics,
        List.Sorted countGE (OutputJSON l) ∧ (OutputJSON l).Perm (l.map project)) ∧
    OutputJSON [] = [] :=
  ⟨fun l => ⟨List.sorted_insertionSort countGE (l.map project),
             List.perm_insertionSort countGE (l.map project)⟩, rfl⟩

/-! ### Claim C7: a consumed Start never pairs again -/

theorem matchStep_pending_empty {st : List RequestPair × (String → Option LogEntry)}
    (h : st.2 "" = none) (e : LogEntry) : (matchStep st e).2 "" = none := by
  unfold matchStep
  by_cases h1 : e.logType = "Started"
  · rw [if_pos h1]
    by_cases h2 : e.sessionID ≠ ""
    · rw [if_pos h2]
      show (if ("" : String) = e.sessionID then some e else st.2 "") = none
      rw [if_neg (fun he => h2 he.symm), h]
    · rw [if_neg h2]; exact h
  · rw [if_neg h1]
    by_cases h2 : e.logType = "Completed" ∧ e.sessionID ≠ ""
    · rw [if_pos h2]
      cases hp : st.2 e.sessionID with
      | some s =>
        show (if ("" : String) = e.sessionID then none else st.2 "") = none
        by_cases h3 : ("" : String) = e.sessionID
        · rw [if_pos h3]
        · rw [if_neg h3, h]
      | none => exact h
    · rw [if_neg h2]; exact h

theorem foldl_matchStep_pending_empty :
    ∀ (l : List LogEntry) {st : List RequestPair × (String → Option LogEntry)},
      st.2 "" = none → (l.foldl matchStep st).2 "" = none
  | [], _, h => h
  | e :: l, st, h => by
    rw [List.foldl_cons]
    exact foldl_matchStep_pending_empty l (matchStep_pending_empty h e)

theorem matchStep_completed_clears {st : List RequestPair × (String → Option LogEntry)}
    {e : LogEntry} (hc : e.logType = "Completed") (hemp : st.2 "" = none) :
    (matchStep st e).2 e.sessionID = none := by
  unfold matchStep
  have h1 : ¬(e.logType = "Started") := by rw [hc]; decide
  rw [if_neg h1]
  by_cases h2 : e.sessionID = ""
  · rw [if_neg (fun hand => hand.2 h2)]
    rw [h2, hemp]
  · rw [if_pos ⟨hc, h2⟩]
    cases hp : st.2 e.sessionID with
    | some s =>
      show (if e.sessionID = e.sessionID then none else st.2 e.sessionID) = none
      rw [if_pos rfl]
    | none => exact hp

theorem matchStep_no_start_preserves {st : List RequestPair × (String → Option LogEntry)}
    {e : LogEntry} {t : String} (h : st.2 t = none)
    (hns : e.logType = "Started" → e.sessionID ≠ t) : (matchStep st e).2 t = none := by
  unfold matchStep
  by_cases h1 : e.logType = "Started"
  · rw [if_pos h1]
    by_cases h2 : e.sessionID ≠ ""
    · rw [if_pos h2]
      show (if t = e.sessionID then some e else st.2 t) = none
      rw [if_neg (fun he => hns h1 he.symm), h]
    · rw [if_neg h2]; exact h
  · rw [if_neg h1]
    by_cases h2 : e.logType = "Completed" ∧ e.sessionID ≠ ""
    · rw [if_pos h2]
      cases hp : st.2 e.sessionID with
      | some s =>
        show (if t = e.sessionID then none else st.2 t) = none
        by_cases h3 : t = e.sessionID
        · rw [if_pos h3]
        · rw [if_neg h3, h]
      | none => exact h
    · rw [if_neg h2]; exact h

theorem foldl_matchStep_no_start_preserves :
    ∀ (l : List LogEntry) {st : List RequestPair × (String → Option LogEntry)} {t : String},
      st.2 t = none → (∀ e ∈ l, e.logType = "Started" → e.sessionID ≠ t) →
      (l.foldl matchStep st).2 t = none
  | [], _, _, h, _ => h
  | e :: l, st, t, h, hl => by
    rw [List.foldl_cons]
    exact foldl_matchStep_no_start_preserves l
      (matchStep_no_start_preserves h (hl e (List.mem_cons_self _ _)))
      (fun e' he' => hl e' (List.mem_cons_of_mem _ he'))

theorem matchStep_noop {st : List RequestPair × (String → Option LogEntry)} {e : LogEntry}
    (hc : e.logType = "Completed") (hp : st.2 e.sessionID = none) : matchStep st e = st := by
  unfold matchStep
  have h1 : ¬(e.logType = "Started") := by rw [hc]; decide
  rw [if_neg h1]
  by_cases h2 : e.logType = "Completed" ∧ e.sessionID ≠ ""
  · rw [if_pos h2, hp]
  · rw [if_neg h2]

/-- **C7**.  When a Completion matches a pending Start, the Start is
deleted in the same step, so a second Completion with the same token
and no intervening Start for that token changes nothing: removing it
from the input leaves the pairing output (and everything after it)
unchanged. -/
theorem matchRequestPairs_second_completion_no_pair
    (xs ys zs : List LogEntry) (c c' : LogEntry)
    (hc : c.logType = "Completed") (hc' : c'.logType = "Completed")
    (ht : c'.sessionID = c.sessionID)
    (hys : ∀ e ∈ ys, e.logType = "Started" → e.sessionID ≠ c.sessionID) :
    MatchRequestPairs (xs ++ c :: ys ++ c' :: zs) = MatchRequestPairs (xs ++ c :: ys ++ zs) := by
  unfold MatchRequestPairs
  simp only [List.foldl_append, List.foldl_cons]
  set st1 := xs.foldl matchStep ([], fun _ => none) with hst1
  have hemp1 : st1.2 "" = none := foldl_matchStep_pending_empty xs rfl
  have hclr : (matchStep st1 c).2 c.sessionID = none := matchStep_completed_clears hc hemp1
  have hst2 : (ys.foldl matchStep (matchStep st1 c)).2 c.sessionID = none :=
    foldl_matchStep_no_start_preserves ys hclr hys
  rw [matchStep_noop hc' (ht ▸ hst2)]

theorem matchRequestPairs_second_completion_no_pair_witness :
    MatchRequestPairs ([] ++ mkCompl "s1" 100 :: [mkStart "s2" "/a"] ++ mkCompl "s1" 200 :: []) =
      MatchRequestPairs ([] ++ mkCompl "s1" 100 :: [mkStart "s2" "/a"] ++ []) :=
  matchRequestPairs_second_completion_no_pair [] [mkStart "s2" "/a"] []
    (mkCompl "s1" 100) (mkCompl "s1" 200) (by decide) (by decide) (by decide) (by decide)

/-! ### Claims C6 and C10: the running statistics are exact -/

/-- Minimum of a nonempty duration list, as the fold the source
computes (first sample, then `if d < min`). -/
def minL : List Int → Int
  | [] => 0
  | d :: t => t.foldl min d

def maxL : List Int → Int
  | [] => 0
  | d :: t => t.foldl max d

/-- The durations folded into route `r`: the pairs that are not
excluded and whose Start path normalizes to `r`, in order. -/
def routeDurations (excl : String → Bool) (r : String) : List RequestPair → List Int
  | [] => []
  | p :: ps =>
    if excl p.started.path then routeDurations excl r ps
    else if NormalizePath p.started.path = r then
      p.completed.duration :: routeDurations excl r ps
    else routeDurations excl r ps

theorem lookup_setAssoc_self {β : Type} (k : String) (v : β) :
    ∀ l : List (String × β), lookupAssoc k (setAssoc k v l) = some v
  | [] => by simp [setAssoc, lookupAssoc]
  | (k', v') :: rest => by
    by_cases h : k' = k
    · simp [setAssoc, lookupAssoc, h]
    · simp only [setAssoc, lookupAssoc, h, if_false]
      exact lookup_setAssoc_self k v rest

theorem lookup_setAssoc_ne {β : Type} {k r : String} (h : r ≠ k) (v : β) :
    ∀ l : List (String × β), lookupAssoc r (setAssoc k v l) = lookupAssoc r l
  | [] => by
    simp only [setAssoc, lookupAssoc]
    rw [if_neg (fun he => h he.symm)]
  | (k', v') :: rest => by
    by_cases hk : k' = k
    · have hkr : ¬(k = r) := fun he => h he.symm
      simp only [setAssoc, lookupAssoc, hk, if_true]
      rw [if_neg hkr, if_neg hkr]
    · simp only [setAssoc, lookupAssoc, hk, if_false]
      by_cases hr : k' = r
      · simp [hr]
      · simp only [hr, if_false]
        exact lookup_setAssoc_ne h v rest

theorem sumVals_bumpAssoc {κ : Type} [DecidableEq κ] (k : κ) :
    ∀ l : List (κ × Nat), sumVals (bumpAssoc k l) = sumVals l + 1
  | [] => rfl
  | (k', n) :: rest => by
    by_cases h : k' = k
    · simp only [bumpAssoc, h, if_true, sumVals]
      omega
    · simp only [bumpAssoc, h, if_false, sumVals]
      rw [sumVals_bumpAssoc k rest]
      omega

theorem minL_append_singleton {ds : List Int} (h : ds ≠ []) (d : Int) :
    minL (ds ++ [d]) = min (minL ds) d := by
  cases ds with
  | nil => exact absurd rfl h
  | cons x t =>
    show (t ++ [d]).foldl min x = min (t.foldl min x) d
    rw [List.foldl_append]
    rfl

theorem maxL_append_singleton {ds : List Int} (h : ds ≠ []) (d : Int) :
    maxL (ds ++ [d]) = max (maxL ds) d := by
  cases ds with
  | nil => exact absurd rfl h
  | cons x t =>
    show (t ++ [d]).foldl max x = max (t.foldl max x) d
    rw [List.foldl_append]
    rfl

/-- The running-statistics invariant tying a route's stored metrics to
the duration samples folded into it so far. -/
def MetricsOK (r : String) (m : PathMetrics) (ds : List Int) : Prop :=
  ds ≠ [] ∧ m.path = r ∧ m.count = ds.length ∧
  m.minTime = minL ds ∧ m.maxTime = maxL ds ∧
  m.averageTime = (ds.sum : ℚ) / (ds.length : ℚ) ∧
  sumVals m.statusCodes = ds.length ∧ sumVals m.methods = ds.length

def AggInv (acc : List (String × PathMetrics)) (D : String → List Int) : Prop :=
  ∀ r : String, (∀ m, lookupAssoc r acc = some m → MetricsOK r m (D r)) ∧
    (lookupAssoc r acc = none → D r = [])

theorem applyPair_first (p : RequestPair) (np : String) :
    MetricsOK np (applyPair (freshMetrics np) p) [p.completed.duration] := by
  unfold applyPair freshMetrics MetricsOK
  refine ⟨by simp, rfl, rfl, ?_, ?_, ?_, rfl, rfl⟩
  · simp [minL]
  · simp [maxL]
  · show (p.completed.duration : ℚ) = _
    simp

theorem applyPair_next {m₁ : PathMetrics} {np : String} {ds : List Int}
    (hok : MetricsOK np m₁ ds) (p : RequestPair) :
    MetricsOK np (applyPair m₁ p) (ds ++ [p.completed.duration]) := by
  obtain ⟨hne, hpath, hcount, hmin, hmax, havg, hsc, hmeth⟩ := hok
  have hlen : ds.length ≠ 0 := fun h => hne (List.length_eq_zero.mp h)
  have hcnt : m₁.count + 1 ≠ 1 := by rw [hcount]; omega
  unfold MetricsOK applyPair
  refine ⟨by simp, hpath, ?_, ?_, ?_, ?_, ?_, ?_⟩
  · show m₁.count + 1 = (ds ++ [p.completed.duration]).length
    rw [hcount]; simp
  · show (if m₁.count + 1 = 1 then p.completed.duration
          else if p.completed.duration < m₁.minTime then p.completed.duration
          else m₁.minTime) = minL (ds ++ [p.completed.duration])
    rw [if_neg hcnt, minL_append_singleton hne, hmin]
    by_cases hlt : p.completed.duration < minL ds
    · rw [if_pos hlt]
      exact (min_eq_right (le_of_lt hlt)).symm
    · rw [if_neg hlt]
      exact (min_eq_left (le_of_not_lt hlt)).symm
  · show (if m₁.count + 1 = 1 then p.completed.duration
          else if m₁.maxTime < p.completed.duration then p.completed.duration
          else m₁.maxTime) = maxL (ds ++ [p.completed.duration])
    rw [if_neg hcnt, maxL_append_singleton hne, hmax]
    by_cases hlt : maxL ds < p.completed.duration
    · rw [if_pos hlt]
      exact (max_eq_right (le_of_lt hlt)).symm
    · rw [if_neg hlt]
      exact (max_eq_left (le_of_not_lt hlt)).symm
  · show (if m₁.count + 1 = 1 then (p.completed.duration : ℚ)
          else (m₁.averageTime * ((m₁.count + 1 - 1 : Nat) : ℚ) + (p.completed.duration : ℚ)) /
            ((m₁.count + 1 : Nat) : ℚ)) =
      ((ds ++ [p.completed.duration]).sum : ℚ) / (((ds ++ [p.completed.duration]).length : Nat) : ℚ)
    rw [if_neg hcnt, havg, hcount, Nat.add_sub_cancel]
    have hq : ((ds.length : ℚ)) ≠ 0 := Nat.cast_ne_zero.mpr hlen
    rw [div_mul_cancel₀ _ hq, List.sum_append, List.length_append]
    simp only [List.sum_cons, List.sum_nil, add_zero, List.length_cons, List.length_nil,
      zero_add]
    push_cast
    ring
  · show sumVals (bumpAssoc p.completed.statusCode m₁.statusCodes) =
      (ds ++ [p.completed.duration]).length
    rw [sumVals_bumpAssoc, hsc]; simp
  · show sumVals (bumpAssoc p.started.method m₁.methods) =
      (ds ++ [p.completed.duration]).length
    rw [sumVals_bumpAssoc, hmeth]; simp

theorem aggStep_inv {excl : String → Bool} {acc : List (String × PathMetrics)}
    {D : String → List Int} (hinv : AggInv acc D) (p : RequestPair) :
    AggInv (aggStep excl acc p)
      (fun r => D r ++ (if excl p.started.path then []
                        else if NormalizePath p.started.path = r then [p.completed.duration]
                        else [])) := by
  unfold AggInv
  intro r
  cases hex : excl p.started.path with
  | true =>
    have hstep : aggStep excl acc p = acc := by
      unfold aggStep
      rw [if_pos hex]
    rw [hstep]
    simp only [hex, if_true, List.append_nil]
    exact hinv r
  | false =>
    have hstep : aggStep excl acc p =
        setAssoc (NormalizePath p.started.path)
          (applyPair ((lookupAssoc (NormalizePath p.started.path) acc).getD
            (freshMetrics (NormalizePath p.started.path))) p) acc := by
      unfold aggStep
      rw [if_neg (by rw [hex]; exact Bool.false_ne_true)]
    rw [hstep]
    simp only [hex, Bool.false_eq_true, if_false]
    by_cases hr : r = NormalizePath p.started.path
    · rw [if_pos hr.symm, ← hr]
      constructor
      · intro m hm
        rw [lookup_setAssoc_self] at hm
        cases hm
        cases hl : lookupAssoc r acc with
        | none =>
          rw [(hinv r).2 hl]
          exact applyPair_first p r
        | some m₁ =>
          exact applyPair_next ((hinv r).1 m₁ hl) p
      · intro hm
        rw [lookup_setAssoc_self] at hm
        cases hm
    · rw [if_neg (fun he => hr he.symm), List.append_nil,
        lookup_setAssoc_ne hr]
      exact hinv r

theorem aggFold_inv (excl : String → Bool) :
    ∀ (pairs : List RequestPair) (acc : List (String × PathMetrics)) (D : String → List Int),
      AggInv acc D →
      AggInv (pairs.foldl (aggStep excl) acc) (fun r => D r ++ routeDurations excl r pairs)
  | [], acc, D, hinv => by
    unfold AggInv
    intro r
    simp only [List.foldl_nil, routeDurations, List.append_nil]
    exact hinv r
  | p :: ps, acc, D, hinv => by
    rw [List.foldl_cons]
    have hrec := aggFold_inv excl ps (aggStep excl acc p)
      (fun r => D r ++ (if excl p.started.path then []
                        else if NormalizePath p.started.path = r then [p.completed.duration]
                        else []))
      (aggStep_inv hinv p)
    unfold AggInv
    intro r
    obtain ⟨h1, h2⟩ := hrec r
    simp only [] at h1 h2
    have hcons : routeDurations excl r (p :: ps) =
        if excl p.started.path then routeDurations excl r ps
        else if NormalizePath p.started.path = r then
          p.completed.duration :: routeDurations excl r ps
        else routeDurations excl r ps := rfl
    have heq : (D r ++ (if excl p.started.path then []
                        else if NormalizePath p.started.path = r then [p.completed.duration]
                        else [])) ++ routeDurations excl r ps =
        D r ++ routeDurations excl r (p :: ps) := by
      rw [List.append_assoc, hcons]
      cases hex : excl p.started.path with
      | true => simp
      | false =>
        simp only [Bool.false_eq_true, if_false]
        by_cases hnp : NormalizePath p.started.path = r
        · simp [hnp]
        · simp [hnp]
    rw [heq] at h1 h2
    exact ⟨h1, h2⟩

theorem aggInv_empty : AggInv [] (fun _ => []) := by
  unfold AggInv
  intro r
  refine ⟨fun m hm => ?_, fun _ => rfl⟩
  cases hm

/-- **C6**.  Every route's stored metrics are the exact statistics of
the duration samples folded into it (read over `ℚ`): `minMs` is their
minimum, `maxMs` their maximum, and `meanMs` their sum divided by
their number. -/
theorem aggregateMetrics_stats_correct (excl : String → Bool) (pairs : List RequestPair)
    (r : String) (m : PathMetrics)
    (hm : lookupAssoc r (AggregateMetrics excl pairs) = some m) :
    routeDurations excl r pairs ≠ [] ∧
    m.minTime = minL (routeDurations excl r pairs) ∧
    m.maxTime = maxL (routeDurations excl r pairs) ∧
    m.averageTime = ((routeDurations excl r pairs).sum : ℚ) /
      ((routeDurations excl r pairs).length : ℚ) := by
  have hinv := aggFold_inv excl pairs [] (fun _ => []) aggInv_empty
  have hok := (hinv r).1 m hm
  simp only [List.nil_append] at hok
  exact ⟨hok.1, hok.2.2.2.1, hok.2.2.2.2.1, hok.2.2.2.2.2.1⟩

def pairs0 : List RequestPair :=
  [⟨mkStart "s1" "/users/1", mkCompl "s1" 100⟩, ⟨mkStart "s2" "/users/2", mkCompl "s2" 200⟩]

def m0 : PathMetrics :=
  { path := "/users/:id", count := 2, averageTime := 150, minTime := 100, maxTime := 200,
    statusCodes := [(200, 2)], methods := [("GET", 2)],
    totalViewDuration := 0, totalDBDuration := 0 }

theorem aggregateMetrics_stats_correct_witness :
    routeDurations (fun _ => false) "/users/:id" pairs0 ≠ [] ∧
    m0.minTime = minL (routeDurations (fun _ => false) "/users/:id" pairs0) ∧
    m0.maxTime = maxL (routeDurations (fun _ => false) "/users/:id" pairs0) ∧
    m0.averageTime = ((routeDurations (fun _ => false) "/users/:id" pairs0).sum : ℚ) /
      ((routeDurations (fun _ => false) "/users/:id" pairs0).length : ℚ) :=
  aggregateMetrics_stats_correct (fun _ => false) pairs0 "/users/:id" m0
    (by with_unfolding_all rfl)

/-- **C10**.  Every entry of the map built by `AggregateMetrics` is
keyed by its own `Path`, and its `Count` equals both the sum of its
status-code counters and the sum of its method counters: all three are
incremented together on every folded pair. -/
theorem aggregateMetrics_count_consistency (excl : String → Bool) (pairs : List RequestPair)
    (r : String) (m : PathMetrics)
    (hm : lookupAssoc r (AggregateMetrics excl pairs) = some m) :
    m.path = r ∧ m.count = sumVals m.statusCodes ∧ m.count = sumVals m.methods := by
  have hinv := aggFold_inv excl pairs [] (fun _ => []) aggInv_empty
  have hok := (hinv r).1 m hm
  simp only [List.nil_append] at hok
  obtain ⟨-, hpath, hcount, -, -, -, hsc, hmeth⟩ := hok
  exact ⟨hpath, by rw [hcount, hsc], by rw [hcount, hmeth]⟩

theorem aggregateMetrics_count_consistency_witness :
    m0.path = "/users/:id" ∧ m0.count = sumVals m0.statusCodes ∧
    m0.count = sumVals m0.methods :=
  aggregateMetrics_count_consistency (fun _ => false) pairs0 "/users/:id" m0
    (by with_unfolding_all rfl)

end CW
